import Mathlib

/-!
Verification of the Argo Energy Solutions analytics layer and frontend services.

The repository is a TypeScript/React energy-monitoring frontend together with a
spec of its analytics layer.  The analytics layer itself (statistics primitives,
anomaly / spike / after-hours analyzers, cost model) lives in backend Python
scripts that are not part of this snapshot; only its unit tests, the report type
declarations (`src/hooks/useWeeklyReport.ts`) and the spec describe it.  Those
components are therefore modelled here from the spec, as flagged in each doc
comment.  The Eniscope API client (`src/services/api/eniscopeApi.ts` and its
apiClient-based duplicate) and the auth context (`src/contexts/AuthContext.tsx`)
are present in the snapshot and are embedded directly from the source.

Numeric values are modelled as rationals; JavaScript strings as `String`;
`undefined`/optional values as `Option`; a thrown `Error` as `Except.error`.
-/

/- ### Statistics primitives (spec §4.1) -/

/-- Modelled from the spec: the statistics-primitive `mean` of §4.1; the
statistics module (`src/services/analytics/statistics.ts` and the backend
analytics scripts) is absent from the snapshot, only its unit test is present.
Division by a zero length yields `0` in `ℚ`, matching the "empty input yields
zero/neutral values" contract. -/
def mean (xs : List ℚ) : ℚ :=
  xs.sum / xs.length

/-- Modelled from the spec: the `percentile(p)` primitive of §4.1, "linear
interpolation between order statistics".  The input is sorted; the rank
`p/100 · (n−1)` is split into an integer part and a fractional part and the
result interpolates linearly between the two adjacent order statistics.
Empty input yields `0` (§4.1). -/
def percentile (xs : List ℚ) (p : ℚ) : ℚ :=
  if xs = [] then 0
  else
    let s := List.insertionSort (· ≤ ·) xs
    let n := s.length
    let pos := p / 100 * ((n : ℚ) - 1)
    let lower := pos.floor.toNat
    let upper := min (lower + 1) (n - 1)
    let frac := pos - (lower : ℚ)
    s.getD lower 0 + frac * (s.getD upper 0 - s.getD lower 0)

/-- Modelled from the spec: IQR-based outlier bounds at configurable
multiplier (§4.1, §4.4): `[Q1 − k·IQR, Q3 + k·IQR]`. -/
def outlierBounds (xs : List ℚ) (k : ℚ) : ℚ × ℚ :=
  (percentile xs 25 - k * (percentile xs 75 - percentile xs 25),
   percentile xs 75 + k * (percentile xs 75 - percentile xs 25))

/-- Reference definition of the median (spec §8, "the median computed by any
standard reference implementation"): the middle order statistic for an
odd-length series, the average of the two middle order statistics for an
even-length one. -/
def medianRef (xs : List ℚ) : ℚ :=
  let s := List.insertionSort (· ≤ ·) xs
  let n := s.length
  if n % 2 = 1 then s.getD (n / 2) 0
  else (s.getD (n / 2 - 1) 0 + s.getD (n / 2) 0) / 2

/- ### Helper lemmas -/

lemma ratFloor_eq_intFloor (q : ℚ) : q.floor = ⌊q⌋ :=
  (Rat.floor_def' q).trans Rat.floor_def.symm

lemma getD_mem_of_lt (l : List ℚ) (i : ℕ) (h : i < l.length) : l.getD i 0 ∈ l := by
  rw [List.getD_eq_getElem?_getD, List.getElem?_eq_getElem h]
  exact List.getElem_mem h

/-- C5: for every non-empty input series, `percentile(50)` computed by linear
interpolation between order statistics equals the median given by the standard
reference definition (exactly, hence within any rounding tolerance). -/
theorem percentile_fifty_is_median (xs : List ℚ) (h : xs ≠ []) :
    percentile xs 50 = medianRef xs := by
  simp only [percentile, medianRef]
  rw [if_neg h]
  set s := List.insertionSort (· ≤ ·) xs with hsdef
  set n := s.length with hndef
  have hn1 : 1 ≤ n := by
    have : 0 < xs.length := List.length_pos.mpr h
    have hlen : n = xs.length := (List.perm_insertionSort (· ≤ ·) xs).length_eq
    omega
  by_cases hpar : n % 2 = 1
  · obtain ⟨m, hm⟩ : ∃ m, n = 2 * m + 1 := ⟨n / 2, by omega⟩
    have h50 : (50 : ℚ) / 100 * ((n : ℚ) - 1) = (m : ℚ) := by
      rw [hm]; push_cast; ring
    rw [h50, ratFloor_eq_intFloor, Int.floor_natCast, Int.toNat_natCast,
      sub_self, zero_mul, add_zero, if_pos hpar]
    have hq : n / 2 = m := by omega
    rw [hq]
  · have hn2 : 2 ≤ n := by omega
    obtain ⟨m, hm⟩ : ∃ m, n = 2 * m := ⟨n / 2, by omega⟩
    have hm1 : 1 ≤ m := by omega
    have h50 : (50 : ℚ) / 100 * ((n : ℚ) - 1) = (m : ℚ) - 1 / 2 := by
      rw [hm]; push_cast; ring
    rw [h50, ratFloor_eq_intFloor]
    have hfl : ⌊(m : ℚ) - 1 / 2⌋ = (m : ℤ) - 1 := by
      rw [Int.floor_eq_iff]
      constructor
      · push_cast; linarith
      · push_cast; linarith
    rw [hfl]
    have htn : ((m : ℤ) - 1).toNat = m - 1 := by omega
    rw [htn]
    have hup : min (m - 1 + 1) (n - 1) = m := by omega
    rw [hup]
    have hcast : ((m - 1 : ℕ) : ℚ) = (m : ℚ) - 1 := by
      rw [Nat.cast_sub hm1]; norm_num
    rw [hcast, if_neg hpar]
    have hq : n / 2 = m := by omega
    rw [hq]
    ring

/-- Witness for C5 at the concrete series `[3, 1, 2]`. -/
theorem percentile_fifty_is_median_witness :
    ([(3 : ℚ), 1, 2] ≠ []) ∧ percentile [3, 1, 2] 50 = medianRef [3, 1, 2] :=
  ⟨by decide, percentile_fifty_is_median [3, 1, 2] (by decide)⟩

lemma percentile_const (xs : List ℚ) (v p : ℚ) (hne : xs ≠ [])
    (hall : ∀ x ∈ xs, x = v) (hp0 : 0 ≤ p) (hp1 : p ≤ 100) :
    percentile xs p = v := by
  simp only [percentile]
  rw [if_neg hne]
  set s := List.insertionSort (· ≤ ·) xs with hsdef
  set n := s.length with hndef
  have hsall : ∀ x ∈ s, x = v := fun x hx =>
    hall x ((List.perm_insertionSort (· ≤ ·) xs).mem_iff.mp hx)
  have hn1 : 1 ≤ n := by
    have : 0 < xs.length := List.length_pos.mpr hne
    have hlen : n = xs.length := (List.perm_insertionSort (· ≤ ·) xs).length_eq
    omega
  set pos := p / 100 * ((n : ℚ) - 1) with hposdef
  have hpos0 : 0 ≤ pos := by
    apply mul_nonneg (div_nonneg hp0 (by norm_num))
    have : (1 : ℚ) ≤ (n : ℚ) := by exact_mod_cast hn1
    linarith
  have hposn : pos ≤ (n : ℚ) - 1 := by
    have h1 : p / 100 ≤ 1 := by
      rw [div_le_one (by norm_num)]; exact hp1
    have h2 : (0 : ℚ) ≤ (n : ℚ) - 1 := by
      have : (1 : ℚ) ≤ (n : ℚ) := by exact_mod_cast hn1
      linarith
    exact mul_le_of_le_one_left h2 h1
  have hfl0 : 0 ≤ pos.floor := by
    rw [ratFloor_eq_intFloor]
    exact Int.floor_nonneg.mpr hpos0
  have hfln : pos.floor ≤ (n : ℤ) - 1 := by
    rw [ratFloor_eq_intFloor]
    have : ⌊pos⌋ ≤ ⌊(n : ℚ) - 1⌋ := Int.floor_le_floor hposn
    have hcast : ((n : ℚ) - 1) = (((n : ℤ) - 1 : ℤ) : ℚ) := by push_cast; ring
    rw [hcast, Int.floor_intCast] at this
    exact this
  have hlow : pos.floor.toNat < n := by omega
  have hupp : min (pos.floor.toNat + 1) (n - 1) < n := by omega
  rw [hsall _ (getD_mem_of_lt s _ hlow), hsall _ (getD_mem_of_lt s _ hupp),
    sub_self, mul_zero, add_zero]

/- ### Anomaly Detector (spec §4.4) -/

/-- Modelled from the spec: the per-point out-of-band test of the anomaly
detector (§4.4): a point is flagged when it lies outside
`[Q1 − k·IQR, Q3 + k·IQR]`.  The detector itself is backend analytics code
absent from the snapshot. -/
def iqrFlag (xs : List ℚ) (k : ℚ) (x : ℚ) : Bool :=
  decide (x < (outlierBounds xs k).1) || decide ((outlierBounds xs k).2 < x)

/-- Modelled from the spec: grouping of consecutive flagged points into runs
(§4.4, "merge adjacent flagged points into one event").  Each run is the list
of its `(index, value)` points, so an event carries its start/end positions. -/
def iqrRuns : List (ℕ × ℚ × Bool) → List (ℕ × ℚ) → List (List (ℕ × ℚ))
  | [], acc => if acc.isEmpty then [] else [acc.reverse]
  | (i, x, b) :: rest, acc =>
    if b then iqrRuns rest ((i, x) :: acc)
    else (if acc.isEmpty then [] else [acc.reverse]) ++ iqrRuns rest []

/-- Modelled from the spec: the anomaly detector of §4.4 — flag points outside
the IQR band, merge adjacent flagged points into events, and keep only events
whose run length meets the minimum run length. -/
def detectAnomaliesIQR (xs : List ℚ) (k : ℚ) (minRun : ℕ) : List (List (ℕ × ℚ)) :=
  (iqrRuns (xs.enum.map (fun pr => (pr.1, pr.2, iqrFlag xs k pr.2))) []).filter
    (fun run => decide (minRun ≤ run.length))

lemma iqrRuns_all_false (l : List (ℕ × ℚ × Bool)) (h : ∀ pr ∈ l, pr.2.2 = false) :
    iqrRuns l [] = [] := by
  induction l with
  | nil => rfl
  | cons a rest ih =>
    obtain ⟨i, x, b⟩ := a
    have hb : b = false := h (i, x, b) (List.mem_cons_self _ _)
    rw [iqrRuns, hb]
    simp only [Bool.false_eq_true, if_false, List.isEmpty_nil, if_true, List.nil_append]
    exact ih fun pr hpr => h pr (List.mem_cons_of_mem _ hpr)

/-- C4: anomaly detection on a strictly uniform consumption series (all values
equal, zero variance) returns zero findings, for every IQR multiplier and every
minimum run length. -/
theorem detectAnomaliesIQR_uniform (xs : List ℚ) (v k : ℚ) (minRun : ℕ)
    (h : ∀ x ∈ xs, x = v) :
    detectAnomaliesIQR xs k minRun = [] := by
  rcases eq_or_ne xs [] with hxs | hxs
  · subst hxs; rfl
  · have hq1 : percentile xs 25 = v := percentile_const xs v 25 hxs h (by norm_num) (by norm_num)
    have hq3 : percentile xs 75 = v := percentile_const xs v 75 hxs h (by norm_num) (by norm_num)
    have hflag : ∀ x ∈ xs, iqrFlag xs k x = false := by
      intro x hx
      rw [iqrFlag, outlierBounds, hq1, hq3, h x hx]
      simp
    rw [detectAnomaliesIQR, iqrRuns_all_false]
    · rfl
    · intro pr hpr
      obtain ⟨⟨i, y⟩, hiy, rfl⟩ := List.mem_map.mp hpr
      have hy : y ∈ xs := by
        have := List.mem_map_of_mem Prod.snd hiy
        rwa [List.enum_map_snd] at this
      exact hflag y hy

/-- Witness for C4 at the concrete uniform series `[4, 4, 4]`. -/
theorem detectAnomaliesIQR_uniform_witness :
    (∀ x ∈ [(4 : ℚ), 4, 4], x = 4) ∧ detectAnomaliesIQR [4, 4, 4] 7 1 = [] :=
  ⟨by decide, detectAnomaliesIQR_uniform [4, 4, 4] 4 7 1 (by decide)⟩

/- ### Energy statistics aggregate (statistics.ts, via its unit test) -/

/-- Modelled from the spec: one consumption record as consumed by
`calculateEnergyStatistics` in `src/services/analytics/statistics.test.ts`
(the `statistics.ts` module itself is absent from the snapshot): a value, an
optional cost and a timestamp. -/
structure EnergyConsumption where
  value : ℚ
  cost : Option ℚ
  timestamp : String
deriving DecidableEq

/-- Modelled from the spec: the result record of `calculateEnergyStatistics`,
with the fields asserted by its unit test. -/
structure EnergyStatistics where
  totalConsumption : ℚ
  averageConsumption : ℚ
  peakConsumption : ℚ
  minConsumption : ℚ
  cost : ℚ
  averageCost : ℚ
  peakTimestamp : Option String
  minTimestamp : Option String
  period : String × String
deriving DecidableEq

/-- Modelled from the spec: `calculateEnergyStatistics` — totals, averages,
peak and minimum over a consumption series (behaviour pinned by the unit test
`statistics.test.ts`: zeroes for empty data; sums, averages and extrema with
their timestamps otherwise; a missing cost counts as 0). -/
def calculateEnergyStatistics (data : List EnergyConsumption)
    (startDate endDate : String) : EnergyStatistics :=
  match data with
  | [] =>
    { totalConsumption := 0, averageConsumption := 0, peakConsumption := 0
      minConsumption := 0, cost := 0, averageCost := 0
      peakTimestamp := none, minTimestamp := none, period := (startDate, endDate) }
  | d :: ds =>
    let vals := (d :: ds).map EnergyConsumption.value
    let total := vals.sum
    let n : ℚ := (d :: ds).length
    let peak := vals.foldl max d.value
    let minv := vals.foldl min d.value
    let totalCost := ((d :: ds).map (fun r => r.cost.getD 0)).sum
    { totalConsumption := total
      averageConsumption := total / n
      peakConsumption := peak
      minConsumption := minv
      cost := totalCost
      averageCost := totalCost / n
      peakTimestamp := ((d :: ds).find? (fun r => decide (r.value = peak))).map
        EnergyConsumption.timestamp
      minTimestamp := ((d :: ds).find? (fun r => decide (r.value = minv))).map
        EnergyConsumption.timestamp
      period := (startDate, endDate) }

/-- Modelled from the spec: `detectAnomalies` over a consumption series (unit
test: empty input gives an empty list, a clear outlier against uniform-ish data
is flagged, uniform data gives none).  A point is anomalous when its deviation
from the mean exceeds `threshold` standard deviations; the comparison is
expressed through squares so it stays inside `ℚ`. -/
def detectAnomalies (data : List EnergyConsumption) (threshold : ℚ) :
    List EnergyConsumption :=
  match data with
  | [] => []
  | _ :: _ =>
    let vals := data.map EnergyConsumption.value
    let mu := mean vals
    let varv := ((vals.map (fun x => (x - mu) ^ 2)).sum) / (vals.length : ℚ)
    data.filter (fun r => decide (threshold ^ 2 * varv < (r.value - mu) ^ 2))

/-- C2: every statistics primitive and the energy-statistics aggregate yield
zero/neutral results on an empty input sequence (zero total, average, peak,
minimum and cost; an empty anomaly list); as total functions they never raise
an error. -/
theorem empty_input_neutral (p k t : ℚ) (startDate endDate : String) :
    mean [] = 0
    ∧ percentile [] p = 0
    ∧ outlierBounds [] k = (0, 0)
    ∧ calculateEnergyStatistics [] startDate endDate =
        { totalConsumption := 0, averageConsumption := 0, peakConsumption := 0
          minConsumption := 0, cost := 0, averageCost := 0
          peakTimestamp := none, minTimestamp := none
          period := (startDate, endDate) }
    ∧ detectAnomalies [] t = [] := by
  refine ⟨by simp [mean], by simp [percentile], ?_, rfl, rfl⟩
  simp [outlierBounds, percentile]

/-- C3 counterexample: an empty series — malformed input "where a statistic is
undefined" — is not surfaced as a validation error; `calculateEnergyStatistics`
(as pinned by its own unit test, `statistics.test.ts` lines 22–29) silently
coerces it into the zero-valued result record. -/
theorem empty_series_not_an_error :
    calculateEnergyStatistics [] "2025-01-01" "2025-01-31" =
      { totalConsumption := 0, averageConsumption := 0, peakConsumption := 0
        minConsumption := 0, cost := 0, averageCost := 0
        peakTimestamp := none, minTimestamp := none
        period := ("2025-01-01", "2025-01-31") } := rfl

/-- C3 amended: malformed or insufficient input is not surfaced as a validation
error by the statistics layer; an empty series where a statistic is undefined
is silently coerced into the zero/neutral result record and an empty anomaly
list, never an error. -/
theorem empty_series_coerced_to_neutral (startDate endDate : String) (t : ℚ) :
    calculateEnergyStatistics [] startDate endDate =
      { totalConsumption := 0, averageConsumption := 0, peakConsumption := 0
        minConsumption := 0, cost := 0, averageCost := 0
        peakTimestamp := none, minTimestamp := none
        period := (startDate, endDate) }
    ∧ detectAnomalies [] t = [] :=
  ⟨rfl, rfl⟩

/- ### Cost Model: time-of-use allocation (spec §4.6) -/

/-- Modelled from the spec: one interval of the power/energy series fed to the
cost model (§4.6) — its wall-clock hour and its energy. -/
structure TouInterval where
  hour : ℕ
  kwh : ℚ
deriving DecidableEq

/-- Modelled from the spec: a time-of-use rate schedule assigns each wall-clock
hour its named TOU period (§4.6: "named periods → {hours, rate}", allocation
"by wall-clock hour (config-driven, not inferred)"); rates are irrelevant to
the energy partition. -/
def touPeriodNames (sched : ℕ → String) : List String :=
  ((List.range 24).map sched).dedup

/-- Modelled from the spec: the kWh allocated to one named TOU period — the
energy of the intervals whose wall-clock hour the schedule maps to that
period (§4.6). -/
def touPeriodKwh (sched : ℕ → String) (xs : List TouInterval) (nm : String) : ℚ :=
  ((xs.filter (fun i => decide (sched (i.hour % 24) = nm))).map TouInterval.kwh).sum

/-- Total kWh of the input series. -/
def touTotalKwh (xs : List TouInterval) : ℚ :=
  (xs.map TouInterval.kwh).sum

lemma sum_map_add_pointwise {α : Type} (l : List α) (f g : α → ℚ) :
    (l.map (fun x => f x + g x)).sum = (l.map f).sum + (l.map g).sum := by
  induction l with
  | nil => simp
  | cons a t ih => simp only [List.map_cons, List.sum_cons, ih]; ring

lemma sum_map_indicator {α : Type} [DecidableEq α] (ns : List α) (a : α) (c : ℚ)
    (hnd : ns.Nodup) (ha : a ∈ ns) :
    (ns.map (fun nm => if a = nm then c else 0)).sum = c := by
  induction ns with
  | nil => cases ha
  | cons b t ih =>
    rcases List.mem_cons.mp ha with hab | hat
    · subst hab
      have hnot : a ∉ t := (List.nodup_cons.mp hnd).1
      have hz : (t.map (fun nm => if a = nm then c else 0)).sum = 0 := by
        apply List.sum_eq_zero
        intro x hx
        obtain ⟨nm, hnm, rfl⟩ := List.mem_map.mp hx
        rw [if_neg]
        intro hanm
        exact hnot (hanm ▸ hnm)
      simp only [List.map_cons, List.sum_cons, hz]
      simp
    · have hab : a ≠ b := by
        intro hh
        exact (List.nodup_cons.mp hnd).1 (hh ▸ hat)
      simp only [List.map_cons, List.sum_cons, if_neg hab, zero_add]
      exact ih (List.nodup_cons.mp hnd).2 hat

lemma sum_fiberwise {α β : Type} [DecidableEq β] (xs : List α) (ns : List β)
    (f : α → β) (g : α → ℚ) (hnd : ns.Nodup) (hmem : ∀ x ∈ xs, f x ∈ ns) :
    (ns.map (fun nm => ((xs.filter (fun x => decide (f x = nm))).map g).sum)).sum
      = (xs.map g).sum := by
  induction xs with
  | nil => simp
  | cons x rest ih =>
    have hstep : ∀ nm : β,
        (((x :: rest).filter (fun y => decide (f y = nm))).map g).sum
          = (if f x = nm then g x else 0)
            + ((rest.filter (fun y => decide (f y = nm))).map g).sum := by
      intro nm
      by_cases hfx : f x = nm
      · rw [List.filter_cons_of_pos (by simpa using hfx), List.map_cons,
          List.sum_cons, if_pos hfx]
      · rw [List.filter_cons_of_neg (by simpa using hfx), if_neg hfx, zero_add]
    have hrw : (ns.map (fun nm =>
        (((x :: rest).filter (fun y => decide (f y = nm))).map g).sum)).sum
        = (ns.map (fun nm => (if f x = nm then g x else 0)
            + ((rest.filter (fun y => decide (f y = nm))).map g).sum)).sum := by
      congr 1
      exact List.map_congr_left (fun nm _ => hstep nm)
    rw [hrw, sum_map_add_pointwise ns _ _,
      sum_map_indicator ns (f x) (g x) hnd (hmem x (List.mem_cons_self x rest)),
      ih (fun y hy => hmem y (List.mem_cons_of_mem x hy))]
    simp

/-- C1: the cost model's TOU allocation partitions the input energy — for every
input series and every (hour → period) rate schedule, the sum of per-period kWh
across all named periods equals the total kWh of the series; no interval is
double-counted or dropped. -/
theorem tou_allocation_partitions_energy (sched : ℕ → String) (xs : List TouInterval) :
    ((touPeriodNames sched).map (touPeriodKwh sched xs)).sum = touTotalKwh xs := by
  rw [touTotalKwh]
  have hmem : ∀ i ∈ xs, sched (i.hour % 24) ∈ touPeriodNames sched := by
    intro i _
    rw [touPeriodNames]
    apply List.mem_dedup.mpr
    exact List.mem_map_of_mem sched (List.mem_range.mpr (Nat.mod_lt _ (by norm_num)))
  have := sum_fiberwise xs (touPeriodNames sched)
    (fun i => sched (i.hour % 24)) TouInterval.kwh (List.nodup_dedup _) hmem
  rw [← this]
  rfl

/- ### Cost Model: demand charge and ratchet (spec §4.6) -/

/-- Modelled from the spec: billing-peak demand — "the maximum interval power
in the billing window" (§4.6). -/
def windowPeakKw (xs : List ℚ) : ℚ :=
  xs.foldr max 0

/-- Modelled from the spec: the billed demand peak after applying the demand
ratchet "against any stored historical peak" (§4.6, "billed demand ≥ 80% of the
trailing 12-month peak" at the default fraction). -/
def billedDemandKw (xs : List ℚ) (historicalPeak ratchetFraction : ℚ) : ℚ :=
  max (windowPeakKw xs) (ratchetFraction * historicalPeak)

/-- C6: for every billing window, stored historical peak and ratchet fraction,
the billed demand peak is at least `ratchetFraction × historicalPeak` — also
when the window's own maximum interval power is below that floor. -/
theorem billed_demand_respects_ratchet (xs : List ℚ)
    (historicalPeak ratchetFraction : ℚ) :
    ratchetFraction * historicalPeak ≤ billedDemandKw xs historicalPeak ratchetFraction :=
  le_max_right _ _

/- ### After-Hours Waste Analyzer (spec §4.3) -/

/-- Modelled from the spec: one interval of a power series with its wall-clock
hour, as consumed by the after-hours waste analyzer (§4.3). -/
structure PowerInterval where
  hour : ℕ
  kw : ℚ
deriving DecidableEq

/-- Modelled from the spec: the power draw during business hours (§4.3), the
population from which the baseline percentile is taken; the business-hours
calendar is a config-driven predicate on the wall-clock hour. -/
def businessVals (isBusinessHour : ℕ → Bool) (xs : List PowerInterval) : List ℚ :=
  (xs.filter (fun i => isBusinessHour (i.hour % 24))).map PowerInterval.kw

/-- Modelled from the spec: baseline load — "the low-percentile power draw
during business hours, used as a proxy for the should-be-off floor" (§4.3;
default percentile 5). -/
def ahBaselineKw (isBusinessHour : ℕ → Bool) (p : ℚ) (xs : List PowerInterval) : ℚ :=
  percentile (businessVals isBusinessHour xs) p

/-- Modelled from the spec: per-interval after-hours excess — "for every
after-hours interval, excess = max(0, actual_kw − baseline_kw)" (§4.3). -/
def afterHoursExcessList (isBusinessHour : ℕ → Bool) (p : ℚ)
    (xs : List PowerInterval) : List ℚ :=
  (xs.filter (fun i => !(isBusinessHour (i.hour % 24)))).map
    (fun i => max 0 (i.kw - ahBaselineKw isBusinessHour p xs))

/-- Modelled from the spec: the aggregated after-hours waste — excess energy
(excess kW summed over after-hours intervals times the interval length in
hours) and its cost at the tariff rate (§4.3). -/
def afterHoursWaste (isBusinessHour : ℕ → Bool) (p rate intervalHours : ℚ)
    (xs : List PowerInterval) : ℚ × ℚ :=
  ((afterHoursExcessList isBusinessHour p xs).sum * intervalHours,
   (afterHoursExcessList isBusinessHour p xs).sum * intervalHours * rate)

/-- C7: the after-hours analyzer computes each after-hours interval's excess as
`max(0, actual_kw − baseline_kw)`; hence on every series whose after-hours
power never exceeds the baseline, every per-interval excess, the aggregated
excess energy and the resulting cost are all zero. -/
theorem after_hours_no_excess_zero_cost (isBusinessHour : ℕ → Bool)
    (p rate intervalHours : ℚ) (xs : List PowerInterval)
    (h : ∀ i ∈ xs, isBusinessHour (i.hour % 24) = false →
      i.kw ≤ ahBaselineKw isBusinessHour p xs) :
    (∀ e ∈ afterHoursExcessList isBusinessHour p xs, e = 0)
    ∧ afterHoursWaste isBusinessHour p rate intervalHours xs = (0, 0) := by
  have hz : ∀ e ∈ afterHoursExcessList isBusinessHour p xs, e = 0 := by
    intro e he
    rw [afterHoursExcessList] at he
    obtain ⟨i, hi, rfl⟩ := List.mem_map.mp he
    rw [List.mem_filter] at hi
    have hcfg : isBusinessHour (i.hour % 24) = false := by
      have := hi.2
      simpa using this
    have hle := h i hi.1 hcfg
    exact max_eq_left (sub_nonpos.mpr hle)
  refine ⟨hz, ?_⟩
  have hsum : (afterHoursExcessList isBusinessHour p xs).sum = 0 := List.sum_eq_zero hz
  rw [afterHoursWaste, hsum]
  norm_num

/-- Witness for C7: business hours 9–17, one business interval at 5 kW (so the
baseline is 5 kW) and one after-hours interval at 2 kW ≤ baseline. -/
theorem after_hours_no_excess_zero_cost_witness :
    (∀ i ∈ [PowerInterval.mk 10 5, PowerInterval.mk 20 2],
      (fun hr => decide (9 ≤ hr ∧ hr < 17)) (i.hour % 24) = false →
        i.kw ≤ ahBaselineKw (fun hr => decide (9 ≤ hr ∧ hr < 17)) 5
          [PowerInterval.mk 10 5, PowerInterval.mk 20 2])
    ∧ afterHoursWaste (fun hr => decide (9 ≤ hr ∧ hr < 17)) 5 (3/20) 1
        [PowerInterval.mk 10 5, PowerInterval.mk 20 2] = (0, 0) := by
  have hb : ahBaselineKw (fun hr => decide (9 ≤ hr ∧ hr < 17)) 5
      [PowerInterval.mk 10 5, PowerInterval.mk 20 2] = 5 := by
    rw [ahBaselineKw]
    have hvals : businessVals (fun hr => decide (9 ≤ hr ∧ hr < 17))
        [PowerInterval.mk 10 5, PowerInterval.mk 20 2] = [5] := by decide
    rw [hvals, percentile]
    norm_num [List.insertionSort, List.orderedInsert, ratFloor_eq_intFloor]
  have hhyp : ∀ i ∈ [PowerInterval.mk 10 5, PowerInterval.mk 20 2],
      (fun hr => decide (9 ≤ hr ∧ hr < 17)) (i.hour % 24) = false →
        i.kw ≤ ahBaselineKw (fun hr => decide (9 ≤ hr ∧ hr < 17)) 5
          [PowerInterval.mk 10 5, PowerInterval.mk 20 2] := by
    rw [hb]
    intro i hi hcfg
    fin_cases hi
    · simp at hcfg
    · norm_num
  exact ⟨hhyp, (after_hours_no_excess_zero_cost _ 5 (3/20) 1 _ hhyp).2⟩

/- ### Spike Detector (spec §4.5) -/

/-- Modelled from the spec: the spike baseline — the configured percentile of
the consumption series (§4.5, default the 95th percentile). -/
def spikeBaselineKw (xs : List ℚ) (p : ℚ) : ℚ :=
  percentile xs p

/-- Modelled from the spec: the spike detector (§4.5) — "any interval exceeding
baseline × multiplier is a spike event", with the boundary made explicit by §8:
strictly greater-than is required to flag. -/
def detectSpikes (xs : List ℚ) (p mult : ℚ) : List ℚ :=
  xs.filter (fun v => decide (spikeBaselineKw xs p * mult < v))

/-- C8: the spike detector flags exactly the intervals whose value strictly
exceeds baseline × multiplier; in particular the boundary value
baseline × multiplier itself is never flagged. -/
theorem spikes_iff_strictly_above_threshold (xs : List ℚ) (p mult : ℚ) :
    (∀ v : ℚ, v ∈ detectSpikes xs p mult ↔
      v ∈ xs ∧ spikeBaselineKw xs p * mult < v)
    ∧ spikeBaselineKw xs p * mult ∉ detectSpikes xs p mult := by
  have hiff : ∀ v : ℚ, v ∈ detectSpikes xs p mult ↔
      v ∈ xs ∧ spikeBaselineKw xs p * mult < v := by
    intro v
    rw [detectSpikes, List.mem_filter]
    simp
  refine ⟨hiff, ?_⟩
  intro hmem
  exact lt_irrefl _ ((hiff _).mp hmem).2

/- ### Eniscope API client: getReadings query construction -/

/-- Input parameter object of `EniscopeAPIClient.getReadings` (both copies):
`fields` is required; `daterange` is either a single string or a two-string
array; `res`, `action` and `showCounters` are optional.  JavaScript
`undefined` is modelled as `none`. -/
structure ReadingsParams where
  fields : List String
  daterange : Option (String ⊕ (String × String))
  res : Option String
  action : Option String
  showCounters : Option Bool
deriving DecidableEq

/-- The query-parameter object sent to `/api/eniscope/readings/:channelId`:
`res`, `action`, `showCounters` and `fields[]` are always present; at most one
of the keys `daterange` and `daterange[]` is set. -/
structure ReadingsQuery where
  res : String
  action : String
  showCounters : String
  fieldsArr : List String
  daterange : Option String
  daterangeArr : Option (String × String)
deriving DecidableEq

/-- Embedding of `EniscopeAPIClient.getReadings` query construction from
`src/services/api/eniscopeApi.ts` (the axios-based client), lines 82–111:
`res: params.res || '3600'`, `action: params.action || 'summarize'`,
`showCounters: params.showCounters ? '1' : '0'`, `fields[]: params.fields`;
`if (params.daterange)` (JavaScript truthiness — an empty string is falsy and
is skipped), arrays go under `daterange[]`, other strings under `daterange`. -/
def buildReadingsQueryAxios (p : ReadingsParams) : ReadingsQuery :=
  let base : ReadingsQuery :=
    { res := p.res.getD "3600"
      action := p.action.getD "summarize"
      showCounters := if p.showCounters.getD false then "1" else "0"
      fieldsArr := p.fields
      daterange := none
      daterangeArr := none }
  match p.daterange with
  | none => base
  | some (Sum.inl s) => if s = "" then base else { base with daterange := some s }
  | some (Sum.inr pr) => { base with daterangeArr := some pr }

/-- Embedding of the duplicated `EniscopeAPIClient.getReadings` from the
apiClient-based copy (`src/unnamed/part_008`, lines 68–97); its query
construction is textually identical to the axios-based one. -/
def buildReadingsQueryApiClient (p : ReadingsParams) : ReadingsQuery :=
  let base : ReadingsQuery :=
    { res := p.res.getD "3600"
      action := p.action.getD "summarize"
      showCounters := if p.showCounters.getD false then "1" else "0"
      fieldsArr := p.fields
      daterange := none
      daterangeArr := none }
  match p.daterange with
  | none => base
  | some (Sum.inl s) => if s = "" then base else { base with daterange := some s }
  | some (Sum.inr pr) => { base with daterangeArr := some pr }

/-- C9 counterexample: an empty-string `daterange` is a string daterange, yet
neither client sends it under the key `daterange` — JavaScript truthiness makes
`if (params.daterange)` skip the empty string, contradicting the claim that a
string daterange is (always) sent under `daterange`. -/
theorem getReadings_empty_string_daterange_dropped :
    (buildReadingsQueryAxios
      { fields := ["E"], daterange := some (Sum.inl ""), res := none
        action := none, showCounters := none }).daterange = none
    ∧ (buildReadingsQueryApiClient
      { fields := ["E"], daterange := some (Sum.inl ""), res := none
        action := none, showCounters := none }).daterange = none :=
  ⟨rfl, rfl⟩

/-- C9 amended: the two `getReadings` implementations construct identical query
parameters for every input — `res` defaults to `'3600'`, `action` to
`'summarize'`, `showCounters` maps to `'1'` when true and `'0'` otherwise, an
array daterange is sent under `daterange[]`, and a *non-empty* string daterange
is sent under `daterange` (an empty string is omitted by JS truthiness). -/
theorem getReadings_clients_equivalent (p : ReadingsParams) :
    buildReadingsQueryAxios p = buildReadingsQueryApiClient p
    ∧ (buildReadingsQueryAxios p).res = p.res.getD "3600"
    ∧ (buildReadingsQueryAxios p).action = p.action.getD "summarize"
    ∧ (buildReadingsQueryAxios p).showCounters
        = (if p.showCounters.getD false then "1" else "0")
    ∧ (buildReadingsQueryAxios p).fieldsArr = p.fields
    ∧ (buildReadingsQueryAxios p).daterange
        = (match p.daterange with
           | some (Sum.inl s) => if s = "" then none else some s
           | _ => none)
    ∧ (buildReadingsQueryAxios p).daterangeArr
        = (match p.daterange with
           | some (Sum.inr pr) => some pr
           | _ => none) := by
  refine ⟨rfl, ?_, ?_, ?_, ?_, ?_, ?_⟩ <;>
    rcases p with ⟨fields, dr, res, action, sc⟩ <;>
    rcases dr with _ | dr <;>
    first
      | rfl
      | (rcases dr with s | pr
         · by_cases hs : s = "" <;>
             simp [buildReadingsQueryAxios, hs]
         · rfl)

/- ### AuthContext login -/

/-- Body of the login HTTP response as read by `AuthProvider.login`
(`src/contexts/AuthContext.tsx`): an optional `detail` field (used for error
messages) and an optional `token` field (used on success). -/
structure LoginBody where
  detail : Option String
  token : Option String
deriving DecidableEq

/-- The login HTTP response: `ok` status plus the JSON body when the body
parses (`resp.json()` succeeds), `none` when parsing would throw. -/
structure LoginResponse where
  ok : Bool
  jsonBody : Option LoginBody
deriving DecidableEq

/-- Auth state touched by `AuthProvider.login`: the token persisted in
localStorage under `argo_auth_token` and the in-memory React token state. -/
structure AuthState where
  stored : Option String
  token : Option String
deriving DecidableEq

/-- Embedding of `AuthProvider.login` from `src/contexts/AuthContext.tsx`,
lines 18–33, as a step on the auth state.  On `!resp.ok` the body is read with
a `{}` fallback (`resp.json().catch(() => ({}))`) and an `Error` is thrown with
`body.detail || 'Login failed'` (JS `||`: a missing or empty-string `detail`
falls through to `'Login failed'`), leaving the state untouched.  On `resp.ok`
the token field is destructured and written to localStorage and to the state
(JS `localStorage.setItem` stringifies a missing field to `"undefined"`);
a body that fails to parse on the success path propagates the parse error,
also leaving the state untouched. -/
def loginStep (r : LoginResponse) (s : AuthState) : AuthState × Except String Unit :=
  match r.ok with
  | true =>
    match r.jsonBody with
    | none => (s, Except.error "SyntaxError")
    | some b => ({ stored := some (b.token.getD "undefined"), token := b.token },
        Except.ok ())
  | false =>
    let body := r.jsonBody.getD { detail := none, token := none }
    let msg := match body.detail with
      | some d => if d = "" then "Login failed" else d
      | none => "Login failed"
    (s, Except.error msg)

/-- C10 counterexample: a failed login whose body carries a *present* but empty
`detail` field throws `Error('Login failed')`, not an error with the body's
`detail` as its message — JS `||` treats the empty string as absent. -/
theorem login_empty_detail_falls_back :
    (LoginResponse.mk false (some { detail := some "", token := none })).jsonBody
      = some { detail := some "", token := none }
    ∧ loginStep (LoginResponse.mk false (some { detail := some "", token := none }))
        (AuthState.mk none none)
      = (AuthState.mk none none, Except.error "Login failed")
    ∧ "Login failed" ≠ "" :=
  ⟨rfl, rfl, by decide⟩

/-- C10 amended: on a non-ok login response, `AuthProvider.login` throws an
`Error` whose message is the body's `detail` field when present *and
non-empty* and `'Login failed'` otherwise, and leaves both the persisted token
(localStorage `argo_auth_token`) and the in-memory token state unchanged. -/
theorem login_failure_atomic (r : LoginResponse) (s : AuthState) (h : r.ok = false) :
    loginStep r s =
      (s, Except.error
        (match (r.jsonBody.getD { detail := none, token := none }).detail with
         | some d => if d = "" then "Login failed" else d
         | none => "Login failed")) := by
  rw [loginStep, h]

/-- Witness for C10 at a concrete failed response with a non-empty detail. -/
theorem login_failure_atomic_witness :
    (LoginResponse.mk false (some { detail := some "Invalid password", token := none })).ok
      = false
    ∧ loginStep
        (LoginResponse.mk false (some { detail := some "Invalid password", token := none }))
        (AuthState.mk (some "tok0") (some "tok0"))
      = (AuthState.mk (some "tok0") (some "tok0"), Except.error "Invalid password") :=
  ⟨rfl, login_failure_atomic
    (LoginResponse.mk false (some { detail := some "Invalid password", token := none }))
    (AuthState.mk (some "tok0") (some "tok0")) rfl⟩
